import Mathlib

/-!
Shallow embedding of the core of the advanced-proxy-checker repository:
the functions of src/core/checker.py (parsing, per-endpoint checking,
anonymity classification, filtering and sorting) and the result-consuming
scan loop of src/gui.py.  Strings are modelled as lists of characters,
Python integers as ℤ/ℕ, and the exact values of float computations as
rationals or reals.  Mutation of the Proxy dataclass is made explicit by
returning the final state of the mutated record alongside the return
value.
-/

abbrev Str : Type := List Char

/-- Whitespace characters removed by the Python str.strip method
(ASCII subset). -/
def isPySpace (c : Char) : Bool :=
  c = ' ' || c = '\t' || c = '\n' || c = '\r' || c = '\x0b' || c = '\x0c'

/-- Model of str.strip: drop leading and trailing whitespace. -/
def pyStrip (l : Str) : Str :=
  ((l.dropWhile isPySpace).reverse.dropWhile isPySpace).reverse

/-- True when the first list is an initial segment of the second. -/
def leadsWith : Str → Str → Bool
  | [], _ => true
  | _ :: _, [] => false
  | a :: as, b :: bs => a = b && leadsWith as bs

/-- Model of the Python substring test: needle occurs inside hay. -/
def hasSub (needle hay : Str) : Bool :=
  leadsWith needle hay ||
    match hay with
    | [] => false
    | _ :: t => hasSub needle t

/-- Model of str.split with the two-character separator comma-space, the
split used on the echoed origin field:  greedy left-to-right splitting,
so the result has more than one part exactly when the separator occurs. -/
def splitCS : Str → List Str
  | [] => [[]]
  | ',' :: ' ' :: rest => [] :: splitCS rest
  | c :: rest =>
    match splitCS rest with
    | [] => [[c]]
    | h :: t => (c :: h) :: t

/-- Split on the ampersand separator, as qs.split of parse_qsl does. -/
def splitAmp : Str → List Str
  | [] => [[]]
  | '&' :: rest => [] :: splitAmp rest
  | c :: rest =>
    match splitAmp rest with
    | [] => [[c]]
    | h :: t => (c :: h) :: t

/-- Split a field at its first equals sign; none when there is none. -/
def splitEq1 (f : Str) : Option (Str × Str) :=
  if f.contains '=' then
    some (f.takeWhile (fun c => c ≠ '='), (f.dropWhile (fun c => c ≠ '=')).drop 1)
  else none

def isHexDig (c : Char) : Bool :=
  c.isDigit || ('a' ≤ c && c ≤ 'f') || ('A' ≤ c && c ≤ 'F')

def hexVal (c : Char) : ℕ :=
  if c.isDigit then c.toNat - 48
  else if 'a' ≤ c && c ≤ 'f' then c.toNat - 87
  else c.toNat - 55

/-- Model of urllib.parse.unquote_plus restricted to single-byte escapes:
plus becomes space and a valid two-digit percent escape becomes the
character with that code; malformed escapes are kept verbatim. -/
def unquotePlus : Str → Str
  | [] => []
  | '+' :: rest => ' ' :: unquotePlus rest
  | '%' :: a :: b :: rest =>
    if isHexDig a && isHexDig b then
      Char.ofNat (16 * hexVal a + hexVal b) :: unquotePlus rest
    else '%' :: unquotePlus (a :: b :: rest)
  | c :: rest => c :: unquotePlus rest

/-- Model of urllib.parse.parse_qsl with default options: empty fields,
fields without an equals sign and fields with an empty raw value are all
skipped, and names and values are percent-decoded. -/
def parse_qsl (qs : Str) : List (Str × Str) :=
  (splitAmp qs).filterMap fun f =>
    if f.isEmpty then none
    else
      match splitEq1 f with
      | none => none
      | some (n, v) => if v.isEmpty then none else some (unquotePlus n, unquotePlus v)

/-- Model of urllib.parse.urlparse restricted to query extraction: the
unsafe bytes tab, CR and LF are removed, the fragment starts at the first
hash character, and the query is everything after the first question mark
of the part before the fragment. -/
def extractQuery (l : Str) : Str :=
  let u := l.filter fun c => !(c = '\t' || c = '\r' || c = '\n')
  match (u.takeWhile (fun c => c ≠ '#')).dropWhile (fun c => c ≠ '?') with
  | [] => []
  | _ :: rest => rest

def digitsToNat (ds : Str) : Option ℕ :=
  if ds.isEmpty then none
  else if ds.all Char.isDigit then some (ds.foldl (fun a c => 10 * a + (c.toNat - 48)) 0)
  else none

/-- Model of the Python int constructor on strings: surrounding whitespace
is stripped, then an optional sign followed by a nonempty run of decimal
digits; anything else raises ValueError, modelled as none. -/
def pyInt (s : Str) : Option ℤ :=
  match pyStrip s with
  | '+' :: ds => (digitsToNat ds).map fun n => (n : ℤ)
  | '-' :: ds => (digitsToNat ds).map fun n => -(n : ℤ)
  | ds => (digitsToNat ds).map fun n => (n : ℤ)

def pyUpper (s : Str) : Str := s.map Char.toUpper

/-- Embedding of the Proxy dataclass of src/core/checker.py. -/
structure Proxy where
  server : Str
  port : ℤ
  secret : Str
  original_url : Str
  ping : Option ℤ := none
  jitter : Option ℚ := none
  country_code : Option Str := none
  anonymity : Str := "Unknown".toList
  ping_results : List (Str × Option ℕ) := []
  deriving DecidableEq, Repr

/-- The attribute name passed to getattr when sorting; the source uses the
strings ping and jitter. -/
inductive SortBy where
  | ping
  | jitter
  deriving DecidableEq, Repr

/-- Embedding of the FilterCriteria dataclass. -/
structure FilterCriteria where
  max_ping : Option ℤ := none
  min_ping : Option ℤ := none
  include_countries : Option (List Str) := none
  exclude_countries : Option (List Str) := none
  require_secret : Option Str := none
  top_n : Option ℕ := none
  sort_by : SortBy := .ping
  sort_order : Str := "asc".toList
  deriving DecidableEq, Repr

/-- The part of the echo-service JSON read by check_anonymity: the origin
field and the Via and X-Forwarded-For entries of the echoed headers, each
possibly absent. -/
structure AnonResp where
  origin : Option Str := none
  viaHeader : Option Str := none
  xff : Option Str := none
  deriving DecidableEq, Repr

/-- The part of the geo-service JSON read by get_geo_info. -/
structure GeoResp where
  status : Str
  countryCode : Option Str := none
  deriving DecidableEq, Repr

/-- Outcomes of the network interactions of one check_proxy call: the i-th
direct latency sample, the anonymity echo response (none models a failed
request or undecodable body), the hostname resolution, the geo-service
reply, and the tunneled latency per external domain. -/
structure ProbeEnv where
  lat : ℕ → Option ℕ
  anonResp : Option AnonResp := none
  resolvedIp : Option Str := none
  geoResp : Option GeoResp := none
  tunnel : Str → Option ℕ := fun _ => none

/-- Embedding of check_anonymity, as a function of the echo response; none
models any requests exception or JSON decoding failure. -/
def check_anonymity (resp : Option AnonResp) : Str :=
  match resp with
  | none => "Anonymous".toList
  | some d =>
    let origin_ip := splitCS (d.origin.getD [])
    let via := d.viaHeader.getD []
    let forwarded := d.xff.getD []
    if 1 < origin_ip.length || !via.isEmpty || !forwarded.isEmpty then "Transparent".toList
    else "Elite".toList

/-- Embedding of get_geo_info, as a function of the service reply; none
models any request failure. -/
def get_geo_info (resp : Option GeoResp) : Str :=
  match resp with
  | none => "N/A".toList
  | some d =>
    if d.status = "success".toList then d.countryCode.getD ("N/A".toList) else "N/A".toList

/-- Exact sample variance of a list of naturals over ℚ, the quantity whose
square root statistics.stdev returns. -/
def sampleVarQ (l : List ℕ) : ℚ :=
  let n : ℚ := (l.length : ℚ)
  let m : ℚ := (l.sum : ℚ) / n
  ((l.map fun x : ℕ => ((x : ℚ) - m) ^ 2).sum) / (n - 1)

/-- Integer nearest to the square root of a nonnegative rational with ties
to even, computed by integer square root and rational comparisons. -/
def rhSqrt (w : ℚ) : ℤ :=
  let m : ℤ := (Nat.sqrt (⌊w⌋.toNat) : ℤ)
  if 4 * w < (((2 * m + 1) ^ 2 : ℤ) : ℚ) then m
  else if ((((2 * m + 1) ^ 2 : ℤ) : ℚ)) < 4 * w then m + 1
  else if m % 2 = 0 then m else m + 1

/-- Embedding of check_proxy.  The first component is the return value and
the second is the state of the Proxy record after the call: the source
mutates its argument in place and returns it on success, so on the
rejection path the record is returned unmodified. -/
def check_proxy (p : Proxy) (count : ℕ) (fetch_country : Bool)
    (external_domains : List Str) (env : ProbeEnv) : Option Proxy × Proxy :=
  let latencies := (List.range count).filterMap env.lat
  if latencies.isEmpty then (none, p)
  else
    let n := latencies.length
    let pingV : ℤ := ⌊(latencies.sum : ℚ) / (n : ℚ)⌋
    let jitterV : ℚ := if 1 < n then ((rhSqrt (10000 * sampleVarQ latencies) : ℤ) : ℚ) / 100 else 0
    let cc : Option Str :=
      if fetch_country then
        match env.resolvedIp with
        | some _ => some (get_geo_info env.geoResp)
        | none => some ("N/A".toList)
      else p.country_code
    let res : Proxy :=
      { p with
        ping := some pingV
        jitter := some jitterV
        anonymity := check_anonymity env.anonResp
        country_code := cc
        ping_results := p.ping_results ++ external_domains.map fun d => (d, env.tunnel d) }
    (some res, res)

/-- First value listed for a query parameter name, the semantics of
query_params.get(name, [None])[0] on the parse_qs dictionary. -/
def getParam (query : Str) (name : Str) : Option Str :=
  ((parse_qsl query).find? fun kv => kv.1 == name).map fun kv => kv.2

/-- Embedding of parse_proxy_url applied to an already stripped line. -/
def parseCore (cleaned : Str) : Option Proxy :=
  if cleaned.isEmpty then none
  else
    let q := extractQuery cleaned
    match getParam q ("server".toList), getParam q ("port".toList), getParam q ("secret".toList) with
    | some s, some pt, some sec =>
      if s.isEmpty || pt.isEmpty || sec.isEmpty then none
      else
        match pyInt pt with
        | some n => some { server := s, port := n, secret := sec, original_url := cleaned }
        | none => none
    | _, _, _ => none

/-- Embedding of parse_proxy_url of src/core/checker.py. -/
def parse_proxy_url (proxy_url : Str) : Option Proxy :=
  parseCore (pyStrip proxy_url)

/-- Predicate of the max-ping comprehension: ping present and at most the
bound. -/
def pingLeMax (m : ℤ) (p : Proxy) : Bool :=
  match p.ping with
  | some v => v ≤ m
  | none => false

/-- Predicate of the min-ping comprehension: ping present and at least the
bound. -/
def pingGeMin (m : ℤ) (p : Proxy) : Bool :=
  match p.ping with
  | some v => m ≤ v
  | none => false

/-- Predicate of the include-country comprehension: membership of the
record country in the upper-cased allowlist; an absent country is never a
member. -/
def inCountries (codes : List Str) (p : Proxy) : Bool :=
  match p.country_code with
  | some cc => codes.contains cc
  | none => false

/-- Predicate of the exclude-country comprehension: non-membership of the
record country in the upper-cased denylist; an absent country is never a
member, so it always passes. -/
def notInCountries (codes : List Str) (p : Proxy) : Bool :=
  match p.country_code with
  | some cc => !codes.contains cc
  | none => true

/-- Truthiness of an optional string, as Python if tests it: false for
None and for the empty string. -/
def optStrTruthy (o : Option Str) : Bool :=
  match o with
  | some s => !s.isEmpty
  | none => false

/-- Truthiness of an optional list, as Python if tests it: false for None
and for the empty list. -/
def optListTruthy (o : Option (List Str)) : Bool :=
  match o with
  | some l => !l.isEmpty
  | none => false

/-- The attribute value getattr reads for the sort key, as a rational. -/
def fieldVal (f : SortBy) (p : Proxy) : Option ℚ :=
  match f with
  | .ping => p.ping.map fun z => (z : ℚ)
  | .jitter => p.jitter

/-- Sort key of filter_and_sort_proxies: the expression getattr-or-inf
maps both an absent field and a zero field value (both falsy in Python)
to positive infinity. -/
def sortKey (f : SortBy) (p : Proxy) : WithTop ℚ :=
  match fieldVal f p with
  | none => ⊤
  | some x => if x = 0 then ⊤ else (x : WithTop ℚ)

/-- Comparison handed to the stable sort; reverse sorting with a key in
Python orders by the flipped comparison while keeping equal keys in input
order, which is what a stable sort on the flipped relation does. -/
def sortLe (c : FilterCriteria) (a b : Proxy) : Bool :=
  if c.sort_order = "desc".toList then sortKey c.sort_by b ≤ sortKey c.sort_by a
  else sortKey c.sort_by a ≤ sortKey c.sort_by b

/-- True when at least one filter branch of filter_and_sort_proxies runs,
in which case a fresh list is built and the argument list is no longer
aliased when sort mutates. -/
def anyFilterFired (c : FilterCriteria) : Bool :=
  c.max_ping.isSome || c.min_ping.isSome || optStrTruthy c.require_secret ||
    optListTruthy c.include_countries || optListTruthy c.exclude_countries

/-- The max-ping if-block of filter_and_sort_proxies. -/
def stageMax (c : FilterCriteria) (l : List Proxy) : List Proxy :=
  match c.max_ping with
  | some m => l.filter (pingLeMax m)
  | none => l

/-- The min-ping if-block of filter_and_sort_proxies. -/
def stageMin (c : FilterCriteria) (l : List Proxy) : List Proxy :=
  match c.min_ping with
  | some m => l.filter (pingGeMin m)
  | none => l

/-- The require-secret if-block of filter_and_sort_proxies. -/
def stageSec (c : FilterCriteria) (l : List Proxy) : List Proxy :=
  if optStrTruthy c.require_secret then
    l.filter fun p => hasSub (c.require_secret.getD []) p.secret
  else l

/-- The include-countries if-block of filter_and_sort_proxies. -/
def stageInc (c : FilterCriteria) (l : List Proxy) : List Proxy :=
  if optListTruthy c.include_countries then
    l.filter (inCountries ((c.include_countries.getD []).map pyUpper))
  else l

/-- The exclude-countries if-block of filter_and_sort_proxies. -/
def stageExc (c : FilterCriteria) (l : List Proxy) : List Proxy :=
  if optListTruthy c.exclude_countries then
    l.filter (notInCountries ((c.exclude_countries.getD []).map pyUpper))
  else l

/-- Embedding of filter_and_sort_proxies.  The first component is the
returned list; the second is the state of the caller-supplied list after
the call: the source binds filtered to the argument list itself, rebinds
it to fresh lists only inside filter branches that run, and then calls
the in-place sort on whatever list filtered names, so with no active
filter the caller list itself ends up sorted.  The in-place sort of
Python is stable; a stable sort of a total preorder is unique, so it is
modelled by a stable structural insertion sort on the same comparison. -/
def filter_and_sort_proxies (proxies : List Proxy) (c : FilterCriteria) :
    List Proxy × List Proxy :=
  let f5 := stageExc c (stageInc c (stageSec c (stageMin c (stageMax c proxies))))
  let sorted := List.insertionSort (fun a b => sortLe c a b = true) f5
  let result := match c.top_n with
    | some n => sorted.take n
    | none => sorted
  (result, if anyFilterFired c then proxies else sorted)

/-- Embedding of the consuming loop of _run_checker_logic in src/gui.py.
The completions list holds each endpoint outcome in completion order (a
future result: some record on success, none on rejection); running i is
the value of the scan_running flag when the loop examines the i-th
completed future.  The loop breaks before consuming a completion once the
flag reads false; otherwise it publishes successful results. -/
def runLoop (running : ℕ → Bool) : ℕ → List (Option Proxy) → List Proxy
  | _, [] => []
  | i, c :: rest =>
    if running i then
      match c with
      | some r => r :: runLoop running (i + 1) rest
      | none => runLoop running (i + 1) rest
    else []

/-- Published RESULT payloads of one scan, in publication order. -/
def run_checker_logic (completions : List (Option Proxy)) (running : ℕ → Bool) : List Proxy :=
  runLoop running 0 completions

/-- Number of completions consumed before the loop first reads a cleared
scan_running flag (all of them when the flag never reads cleared). -/
def stopPoint (running : ℕ → Bool) (n : ℕ) : ℕ :=
  ((List.range n).takeWhile running).length

/-- Rounding of a real to the nearest integer with ties to even, the
rounding performed by the Python round builtin. -/
noncomputable def rheR (x : ℝ) : ℤ :=
  if x - (⌊x⌋ : ℝ) < 1 / 2 then ⌊x⌋
  else if 1 / 2 < x - (⌊x⌋ : ℝ) then ⌊x⌋ + 1
  else if ⌊x⌋ % 2 = 0 then ⌊x⌋ else ⌊x⌋ + 1

/-- A real rounded to two decimal places with ties to even, the value of
round(x, 2). -/
noncomputable def round2R (x : ℝ) : ℚ :=
  ((rheR (100 * x) : ℤ) : ℚ) / 100

/-- Sample standard deviation over ℝ of a list of naturals, the
mathematical value statistics.stdev computes. -/
noncomputable def stdevR (l : List ℕ) : ℝ :=
  Real.sqrt (((l.map fun x : ℕ => ((x : ℝ) - (l.sum : ℝ) / (l.length : ℝ)) ^ 2).sum) /
    ((l.length : ℝ) - 1))

/-! ### Helper lemmas -/

lemma dropWhile_dropWhile (p : Char → Bool) (l : Str) :
    (l.dropWhile p).dropWhile p = l.dropWhile p := by
  induction l with
  | nil => rfl
  | cons a t ih =>
    by_cases h : p a
    · simp [List.dropWhile_cons, h, ih]
    · simp [List.dropWhile_cons, h]

lemma dropWhile_eq_self_of_dropWhile_rev (p : Char → Bool) (b : Str)
    (hb : b.dropWhile p = b) :
    ((b.reverse.dropWhile p).reverse).dropWhile p = (b.reverse.dropWhile p).reverse := by
  cases b with
  | nil => rfl
  | cons a t =>
    have hpa : p a = false := by
      cases h : p a
      · rfl
      · exfalso
        rw [List.dropWhile_cons, h] at hb
        simp only [if_true] at hb
        have hlen : (t.dropWhile p).length ≤ t.length := (List.dropWhile_sublist p).length_le
        rw [hb] at hlen
        simp at hlen
    have hrev : (a :: t).reverse = t.reverse ++ [a] := by simp
    rw [hrev, List.dropWhile_append]
    by_cases hemp : (t.reverse.dropWhile p).isEmpty
    · simp [hemp, List.dropWhile_cons, hpa]
    · simp [hemp, List.dropWhile_cons, hpa]

lemma pyStrip_idem (l : Str) : pyStrip (pyStrip l) = pyStrip l := by
  unfold pyStrip
  have h1 := dropWhile_eq_self_of_dropWhile_rev isPySpace (l.dropWhile isPySpace)
    (dropWhile_dropWhile isPySpace l)
  rw [h1, List.reverse_reverse, dropWhile_dropWhile]

lemma parse_success_shape (u : Str) (r : Proxy) (h : parse_proxy_url u = some r) :
    r.original_url = pyStrip u ∧ r.ping = none ∧ r.jitter = none ∧ r.country_code = none ∧
      r.anonymity = "Unknown".toList ∧ r.ping_results = [] := by
  simp only [parse_proxy_url, parseCore] at h
  split at h
  · simp at h
  · split at h
    · split at h
      · simp at h
      · split at h
        · rw [Option.some.injEq] at h
          subst h
          exact ⟨rfl, rfl, rfl, rfl, rfl, rfl⟩
        · simp at h
    · simp at h

/-! ### C3: all samples failing is the sole rejection exit -/

/-- C3: check_proxy returns no record exactly when all of the latency
samples failed, whatever the anonymity, geolocation and tunneled probes
would return; with at least one successful sample it always returns a
record. -/
theorem c3_all_samples_fail_iff_rejected (p : Proxy) (count : ℕ) (fc : Bool)
    (doms : List Str) (env : ProbeEnv) :
    (List.range count).filterMap env.lat = [] ↔
      (check_proxy p count fc doms env).1 = none := by
  unfold check_proxy
  by_cases h : (List.range count).filterMap env.lat = []
  · simp [h]
  · simp [h, List.isEmpty_iff]

/-! ### C10: rejection leaves the record exactly as parsed -/

/-- C10: when every latency sample fails, check_proxy returns before any
field assignment, so the record it was handed -- fresh from parsing, with
ping, jitter and country absent, anonymity Unknown and no external ping
entries -- is returned to the caller entirely unchanged. -/
theorem c10_rejection_is_atomic (u : Str) (p : Proxy) (count : ℕ) (fc : Bool)
    (doms : List Str) (env : ProbeEnv)
    (hparse : parse_proxy_url u = some p)
    (hfail : (List.range count).filterMap env.lat = []) :
    check_proxy p count fc doms env = (none, p) ∧ p.ping = none ∧ p.jitter = none ∧
      p.anonymity = "Unknown".toList ∧ p.country_code = none ∧ p.ping_results = [] := by
  have hs := parse_success_shape u p hparse
  refine ⟨?_, hs.2.1, hs.2.2.1, hs.2.2.2.2.1, hs.2.2.2.1, hs.2.2.2.2.2⟩
  unfold check_proxy
  simp [hfail]

def c10url : Str := "tg://x?server=1.2.3.4&port=443&secret=abc".toList

def c10proxy : Proxy :=
  { server := "1.2.3.4".toList, port := 443, secret := "abc".toList, original_url := c10url }

def allFailEnv : ProbeEnv :=
  { lat := fun _ => none, anonResp := some { origin := some ("9.9.9.9".toList) } }

/-- Witness for C10 at a concrete parsed record and an all-failing sample
oracle. -/
theorem c10_witness :
    parse_proxy_url c10url = some c10proxy ∧
      (List.range 3).filterMap allFailEnv.lat = [] ∧
      (check_proxy c10proxy 3 true ["e.com".toList] allFailEnv = (none, c10proxy) ∧
        c10proxy.ping = none ∧ c10proxy.jitter = none ∧
        c10proxy.anonymity = "Unknown".toList ∧ c10proxy.country_code = none ∧
        c10proxy.ping_results = []) :=
  ⟨by decide, by decide,
    c10_rejection_is_atomic c10url c10proxy 3 true ["e.com".toList] allFailEnv
      (by decide) (by decide)⟩

/-! ### C4: anonymity classification -/

/-- C4 (amended): a failed probe is classified Anonymous; a successful
echo response is classified Transparent exactly when the echoed origin
splits on comma-space into more than one address, or a nonempty Via
header value is present, or a nonempty X-Forwarded-For value is present
(a header present with an empty string value is falsy in the source and
does not trigger Transparent), and Elite otherwise; the classification is
never Unknown. -/
theorem c4_classification (resp : Option AnonResp) :
    (resp = none → check_anonymity resp = "Anonymous".toList) ∧
    (∀ d : AnonResp, resp = some d →
      (check_anonymity resp = "Transparent".toList ↔
        (1 < (splitCS (d.origin.getD [])).length ∨
          d.viaHeader.getD [] ≠ [] ∨ d.xff.getD [] ≠ [])) ∧
      (check_anonymity resp = "Elite".toList ↔
        ¬(1 < (splitCS (d.origin.getD [])).length ∨
          d.viaHeader.getD [] ≠ [] ∨ d.xff.getD [] ≠ []))) ∧
    check_anonymity resp ≠ "Unknown".toList := by
  have core : ∀ d : AnonResp,
      (check_anonymity (some d) = "Transparent".toList ↔
        (1 < (splitCS (d.origin.getD [])).length ∨
          d.viaHeader.getD [] ≠ [] ∨ d.xff.getD [] ≠ [])) ∧
      (check_anonymity (some d) = "Elite".toList ↔
        ¬(1 < (splitCS (d.origin.getD [])).length ∨
          d.viaHeader.getD [] ≠ [] ∨ d.xff.getD [] ≠ [])) := by
    intro d
    have hbool : ((decide (1 < (splitCS (d.origin.getD [])).length) ||
        !(d.viaHeader.getD []).isEmpty || !(d.xff.getD []).isEmpty) = true) ↔
        (1 < (splitCS (d.origin.getD [])).length ∨
          d.viaHeader.getD [] ≠ [] ∨ d.xff.getD [] ≠ []) := by
      simp [List.isEmpty_iff, or_assoc]
    have key : check_anonymity (some d) =
        if (decide (1 < (splitCS (d.origin.getD [])).length) ||
            !(d.viaHeader.getD []).isEmpty || !(d.xff.getD []).isEmpty) then
          "Transparent".toList else "Elite".toList := rfl
    by_cases hc : (1 < (splitCS (d.origin.getD [])).length ∨
        d.viaHeader.getD [] ≠ [] ∨ d.xff.getD [] ≠ [])
    · rw [key, if_pos (hbool.mpr hc)]
      exact ⟨⟨fun _ => hc, fun _ => rfl⟩,
        ⟨fun he => absurd he (by decide), fun hn => absurd hc hn⟩⟩
    · rw [key, if_neg (fun ht => hc (hbool.mp ht))]
      exact ⟨⟨fun he => absurd he (by decide), fun ht => absurd ht hc⟩,
        ⟨fun _ => hc, fun _ => rfl⟩⟩
  refine ⟨fun h => by rw [h]; rfl, fun d hd => by rw [hd]; exact core d, ?_⟩
  cases resp with
  | none => decide
  | some d =>
    by_cases hc : (1 < (splitCS (d.origin.getD [])).length ∨
        d.viaHeader.getD [] ≠ [] ∨ d.xff.getD [] ≠ [])
    · rw [(core d).1.mpr hc]; decide
    · rw [(core d).2.mpr hc]; decide

/-- Counterexample for C4 as stated: a response whose echoed headers
contain a Via header (present, with empty string value) is classified
Elite by the source, not Transparent as the claim requires for every
response with a Via header present. -/
theorem c4_cex :
    check_anonymity (some { origin := some ("1.2.3.4".toList), viaHeader := some [] }) =
        "Elite".toList ∧
      ({ origin := some ("1.2.3.4".toList), viaHeader := some [] } : AnonResp).viaHeader =
        some [] := by
  decide

/-- Witness for C4 at concrete responses: a failed probe and a response
with a doubled origin. -/
theorem c4_witness :
    check_anonymity none = "Anonymous".toList ∧
      check_anonymity (some { origin := some ("1.2.3.4, 5.6.7.8".toList) }) =
        "Transparent".toList :=
  ⟨(c4_classification none).1 rfl,
    ((c4_classification (some { origin := some ("1.2.3.4, 5.6.7.8".toList) })).2.1 _ rfl).1.mpr
      (Or.inl (by decide))⟩

/-! ### C5: fields of a parsed record -/

/-- C5 (amended): a record produced by parse_proxy_url always has a
nonempty server and a nonempty secret, but its port is whatever integer
the port parameter parses to: the source performs no range check, so
ports outside 1..65535 (including zero and negative values) are
produced. -/
theorem c5_parsed_fields (u : Str) (r : Proxy) (h : parse_proxy_url u = some r) :
    r.server ≠ [] ∧ r.secret ≠ [] := by
  simp only [parse_proxy_url, parseCore] at h
  split at h
  · simp at h
  · split at h
    · split at h
      · simp at h
      · rename_i hguard
        split at h
        · rw [Option.some.injEq] at h
          subst h
          simp only [List.isEmpty_iff, Bool.or_eq_true, not_or] at hguard
          exact ⟨by simpa using hguard.1.1, by simpa using hguard.2⟩
        · simp at h
    · simp at h

def c5url : Str := "http://t.me/proxy?server=a&port=70000&secret=s".toList

def c5rec : Proxy :=
  { server := "a".toList, port := 70000, secret := "s".toList, original_url := c5url }

/-- Counterexample for C5 as stated: a line whose port parameter is 70000
parses successfully to a record whose port lies outside 1..65535, so
parsing can yield a record with an out-of-range port. -/
theorem c5_cex :
    (parse_proxy_url c5url).map Proxy.port = some 70000 ∧ ¬((70000 : ℤ) ≤ 65535) := by
  constructor
  · decide
  · decide

/-- Witness for C5 at a concrete successfully parsed line. -/
theorem c5_witness :
    parse_proxy_url c5url = some c5rec ∧ (c5rec.server ≠ [] ∧ c5rec.secret ≠ []) :=
  ⟨by decide, c5_parsed_fields c5url c5rec (by decide)⟩

/-! ### C8: parsing round-trips on the stored original descriptor -/

/-- C8: whenever parse_proxy_url succeeds, parsing the stored original
descriptor of the returned record succeeds again and returns the very
same record (same server, port, secret and original descriptor): the
stored descriptor is the stripped input, and stripping is idempotent. -/
theorem c8_roundtrip (u : Str) (r : Proxy) (h : parse_proxy_url u = some r) :
    parse_proxy_url r.original_url = some r := by
  have ho := (parse_success_shape u r h).1
  rw [ho]
  unfold parse_proxy_url at h ⊢
  rw [pyStrip_idem]
  exact h

/-- Witness for C8 at a concrete descriptor. -/
theorem c8_witness :
    parse_proxy_url c10url = some c10proxy ∧
      parse_proxy_url c10proxy.original_url = some c10proxy :=
  ⟨by decide, c8_roundtrip c10url c10proxy (by decide)⟩

/-! ### C6: frame behaviour of filter_and_sort_proxies -/

/-- C6 (amended): when at least one filter criterion is active (a ping
bound present, a nonempty secret requirement, or a nonempty country
list), the caller-supplied list is left exactly as it was; when no
criterion is active, the call sorts the caller-supplied list in place,
leaving it a permutation of itself, because the returned list aliases
the argument.  The function is deterministic and never modifies a
record. -/
theorem c6_frame (l : List Proxy) (c : FilterCriteria) :
    (anyFilterFired c = true → (filter_and_sort_proxies l c).2 = l) ∧
      ((filter_and_sort_proxies l c).2).Perm l := by
  unfold filter_and_sort_proxies
  by_cases h : anyFilterFired c
  · simp [h]
  · rw [Bool.not_eq_true] at h
    have hmax : c.max_ping = none := by
      cases hm : c.max_ping with
      | none => rfl
      | some m => rw [anyFilterFired, hm] at h; simp at h
    have hmin : c.min_ping = none := by
      cases hm : c.min_ping with
      | none => rfl
      | some m => rw [anyFilterFired, hm] at h; simp at h
    have hsec : optStrTruthy c.require_secret = false := by
      cases hs : optStrTruthy c.require_secret
      · rfl
      · rw [anyFilterFired, hs] at h; simp at h
    have hinc : optListTruthy c.include_countries = false := by
      cases hs : optListTruthy c.include_countries
      · rfl
      · rw [anyFilterFired, hs] at h; simp at h
    have hexc : optListTruthy c.exclude_countries = false := by
      cases hs : optListTruthy c.exclude_countries
      · rfl
      · rw [anyFilterFired, hs] at h; simp at h
    constructor
    · intro hcon
      rw [h] at hcon
      exact absurd hcon (by decide)
    · simp only [h, Bool.false_eq_true, if_false,
        stageExc, stageInc, stageSec, stageMin, stageMax, hmax, hmin, hsec, hinc, hexc]
      exact List.perm_insertionSort _ l

def c6pHi : Proxy :=
  { server := "h".toList, port := 1, secret := "s".toList, original_url := "w".toList,
    ping := some 100 }

def c6pLo : Proxy :=
  { server := "h".toList, port := 1, secret := "s".toList, original_url := "x".toList,
    ping := some 50 }

/-- Counterexample for C6 as stated: with no filter criterion specified,
the call leaves the caller-supplied list sorted in place rather than
unchanged: the two records come back swapped in the input list itself. -/
theorem c6_cex :
    (filter_and_sort_proxies [c6pHi, c6pLo] {}).2 ≠ [c6pHi, c6pLo] ∧
      (filter_and_sort_proxies [c6pHi, c6pLo] {}).2 = [c6pLo, c6pHi] := by
  constructor
  · decide
  · decide

/-- Witness for C6 with an active filter criterion: the input list is
untouched. -/
theorem c6_witness :
    (filter_and_sort_proxies [c6pHi] { max_ping := some 200 }).2 = [c6pHi] :=
  (c6_frame [c6pHi] { max_ping := some 200 }).1 (by decide)

/-! ### C7: treatment of absent fields by the individual filters -/

lemma mem_of_mem_result (l : List Proxy) (c : FilterCriteria) (p : Proxy)
    (hp : p ∈ (filter_and_sort_proxies l c).1) :
    p ∈ stageExc c (stageInc c (stageSec c (stageMin c (stageMax c l)))) := by
  unfold filter_and_sort_proxies at hp
  rcases ht : c.top_n with _ | n
  · rw [ht] at hp
    exact ((List.perm_insertionSort _ _).mem_iff).mp hp
  · rw [ht] at hp
    exact ((List.perm_insertionSort _ _).mem_iff).mp
      (List.Sublist.mem hp (List.take_sublist n _))

lemma stageMax_mem {c : FilterCriteria} {l : List Proxy} {p : Proxy}
    (hp : p ∈ stageMax c l) :
    p ∈ l ∧ ∀ m, c.max_ping = some m → pingLeMax m p = true := by
  unfold stageMax at hp
  cases hm : c.max_ping with
  | none =>
    rw [hm] at hp
    exact ⟨hp, fun m h => Option.noConfusion h⟩
  | some m0 =>
    rw [hm, List.mem_filter] at hp
    refine ⟨hp.1, fun m h => ?_⟩
    rw [Option.some.injEq] at h
    subst h
    exact hp.2

lemma stageMin_mem {c : FilterCriteria} {l : List Proxy} {p : Proxy}
    (hp : p ∈ stageMin c l) :
    p ∈ l ∧ ∀ m, c.min_ping = some m → pingGeMin m p = true := by
  unfold stageMin at hp
  cases hm : c.min_ping with
  | none =>
    rw [hm] at hp
    exact ⟨hp, fun m h => Option.noConfusion h⟩
  | some m0 =>
    rw [hm, List.mem_filter] at hp
    refine ⟨hp.1, fun m h => ?_⟩
    rw [Option.some.injEq] at h
    subst h
    exact hp.2

lemma stageSec_mem {c : FilterCriteria} {l : List Proxy} {p : Proxy}
    (hp : p ∈ stageSec c l) : p ∈ l := by
  unfold stageSec at hp
  by_cases ht : optStrTruthy c.require_secret
  · rw [if_pos ht, List.mem_filter] at hp
    exact hp.1
  · rwa [if_neg ht] at hp

lemma stageInc_mem {c : FilterCriteria} {l : List Proxy} {p : Proxy}
    (hp : p ∈ stageInc c l) :
    p ∈ l ∧ (optListTruthy c.include_countries = true →
      inCountries ((c.include_countries.getD []).map pyUpper) p = true) := by
  unfold stageInc at hp
  by_cases ht : optListTruthy c.include_countries
  · rw [if_pos ht, List.mem_filter] at hp
    exact ⟨hp.1, fun _ => hp.2⟩
  · rw [if_neg ht] at hp
    exact ⟨hp, fun h => absurd h ht⟩

lemma stageExc_mem {c : FilterCriteria} {l : List Proxy} {p : Proxy}
    (hp : p ∈ stageExc c l) : p ∈ l := by
  unfold stageExc at hp
  by_cases ht : optListTruthy c.exclude_countries
  · rw [if_pos ht, List.mem_filter] at hp
    exact hp.1
  · rwa [if_neg ht] at hp

/-- C7: a record with no measured ping is excluded from the result
whenever a max-ping or min-ping bound is specified; a record with no
country is excluded whenever a nonempty include-country list is
specified; a record with no country always passes the exclude-country
predicate (an absent country cannot be a member of the denylist); and the
ping bounds are inclusive. -/
theorem c7_absent_field_filtering (c : FilterCriteria) (l : List Proxy) (p : Proxy) :
    (p.ping = none → (c.max_ping.isSome = true ∨ c.min_ping.isSome = true) →
      p ∉ (filter_and_sort_proxies l c).1) ∧
    (p.country_code = none → optListTruthy c.include_countries = true →
      p ∉ (filter_and_sort_proxies l c).1) ∧
    (p.country_code = none → ∀ codes : List Str, notInCountries codes p = true) ∧
    (∀ v m : ℤ, p.ping = some v →
      (pingLeMax m p = true ↔ v ≤ m) ∧ (pingGeMin m p = true ↔ m ≤ v)) := by
  refine ⟨?_, ?_, ?_, ?_⟩
  · intro hping hsome hp
    have h5 := mem_of_mem_result l c p hp
    have h4 := stageExc_mem h5
    have h3 := (stageInc_mem h4).1
    have h2 := stageSec_mem h3
    rcases hsome with hmax | hmin
    · rcases Option.isSome_iff_exists.mp hmax with ⟨m, hm⟩
      have h1 := (stageMin_mem h2).1
      have := (stageMax_mem h1).2 m hm
      simp [pingLeMax, hping] at this
    · rcases Option.isSome_iff_exists.mp hmin with ⟨m, hm⟩
      have := (stageMin_mem h2).2 m hm
      simp [pingGeMin, hping] at this
  · intro hcc htruthy hp
    have h5 := mem_of_mem_result l c p hp
    have := (stageInc_mem (stageExc_mem h5)).2 htruthy
    simp [inCountries, hcc] at this
  · intro hcc codes
    simp [notInCountries, hcc]
  · intro v m hv
    constructor
    · simp [pingLeMax, hv]
    · simp [pingGeMin, hv]

def c7pX : Proxy :=
  { server := "h".toList, port := 1, secret := "s".toList, original_url := "y".toList }

def c7crit : FilterCriteria :=
  { max_ping := some 5, include_countries := some [("US".toList)] }

/-- Witness for C7: a record with absent ping and country is excluded
under a max-ping bound, always passes an exclude predicate, and the
max-ping bound is inclusive at equality. -/
theorem c7_witness :
    c7pX ∉ (filter_and_sort_proxies [c7pX] c7crit).1 ∧
      notInCountries [("RU".toList)] c7pX = true ∧
      (pingLeMax 100 c6pHi = true ↔ (100 : ℤ) ≤ 100) :=
  ⟨(c7_absent_field_filtering c7crit [c7pX] c7pX).1 rfl (Or.inl rfl),
    (c7_absent_field_filtering c7crit [c7pX] c7pX).2.2.1 rfl [("RU".toList)],
    ((c7_absent_field_filtering c7crit [c7pX] c6pHi).2.2.2 100 100 rfl).1⟩

/-! ### C9: stop semantics of the scan loop -/

lemma runLoop_take (running : ℕ → Bool) (comps : List (Option Proxy)) :
    ∀ i : ℕ,
      runLoop running i comps =
        (comps.take (((List.range' i comps.length).takeWhile running).length)).filterMap id := by
  induction comps with
  | nil => intro i; rfl
  | cons c rest ih =>
    intro i
    rw [List.length_cons, List.range'_succ, List.takeWhile_cons]
    by_cases hr : running i
    · simp only [hr, if_true, List.length_cons, List.take_succ_cons, List.filterMap_cons]
      simp only [runLoop, if_pos hr]
      cases c with
      | none => exact ih (i + 1)
      | some r =>
        rw [ih (i + 1)]
        rfl
    · simp [runLoop, hr]

/-- C9 (amended): the published results of a scan are exactly the
successful outcomes among the first k consumed completions, where k is
the number of completed futures the coordinator loop consumed before
first observing a cleared scan_running flag; the completion at which the
cleared flag is observed is discarded even though its endpoint has
already finished, and endpoints past the stop point are never
published. -/
theorem c9_stop_semantics (comps : List (Option Proxy)) (running : ℕ → Bool) :
    run_checker_logic comps running =
      (comps.take (stopPoint running comps.length)).filterMap id := by
  rw [run_checker_logic, stopPoint, List.range_eq_range']
  exact runLoop_take running comps 0

def c9pA : Proxy :=
  { server := "h".toList, port := 1, secret := "s".toList, original_url := "a".toList }

def c9pB : Proxy :=
  { server := "h".toList, port := 1, secret := "s".toList, original_url := "b".toList }

/-- Counterexample for C9 as stated: both endpoints have completed (both
futures appear in the completion stream), yet when the stop flag clears
while the second completion is still unconsumed, only the first result
is ever published: the second completed endpoint's already-decided
result is discarded, and no worker ever observed the stop signal between
probe steps (check_proxy takes no stop input at all). -/
theorem c9_cex :
    run_checker_logic [some c9pA, some c9pB] (fun i => decide (i = 0)) = [c9pA] ∧
      some c9pB ∈ [some c9pA, some c9pB] ∧
      c9pB ∉ run_checker_logic [some c9pA, some c9pB] (fun i => decide (i = 0)) := by
  refine ⟨by decide, by decide, by decide⟩

/-! ### C1: what the sort key actually does -/

lemma sortLe_total (c : FilterCriteria) (a b : Proxy) :
    sortLe c a b = true ∨ sortLe c b a = true := by
  unfold sortLe
  by_cases h : c.sort_order = "desc".toList
  · simp only [h, if_true, decide_eq_true_eq]
    exact le_total _ _
  · simp only [h, if_false, decide_eq_true_eq]
    exact le_total _ _

lemma sortLe_trans (c : FilterCriteria) (a b d : Proxy)
    (hab : sortLe c a b = true) (hbd : sortLe c b d = true) : sortLe c a d = true := by
  unfold sortLe at hab hbd ⊢
  by_cases h : c.sort_order = "desc".toList
  · simp only [h, if_true, decide_eq_true_eq] at hab hbd ⊢
    exact le_trans hbd hab
  · simp only [h, if_false, decide_eq_true_eq] at hab hbd ⊢
    exact le_trans hab hbd

lemma result_pairwise_sortLe (l : List Proxy) (c : FilterCriteria) :
    ((filter_and_sort_proxies l c).1).Pairwise fun a b => sortLe c a b = true := by
  haveI htot : IsTotal Proxy fun a b => sortLe c a b = true := ⟨sortLe_total c⟩
  haveI htrans : IsTrans Proxy fun a b => sortLe c a b = true := ⟨sortLe_trans c⟩
  have hs := List.sorted_insertionSort (fun a b => sortLe c a b = true)
    (stageExc c (stageInc c (stageSec c (stageMin c (stageMax c l)))))
  unfold filter_and_sort_proxies
  cases ht : c.top_n with
  | none => exact hs
  | some n => exact List.Pairwise.sublist (List.take_sublist n _) hs

/-- C1 (amended): the returned list is ordered by the sort key of the
chosen field in the requested direction (equal keys keeping input order),
and that key maps both an absent field value and a zero field value to
positive infinity -- the source reads getattr-or-inf, and 0 is falsy in
Python -- so in ascending order every record whose chosen field is absent
or zero comes after every record with a present nonzero field, and in
descending order before it; an absent-field record is not ordered with
respect to a zero-field record. -/
theorem c1_sort_key_semantics (l : List Proxy) (c : FilterCriteria) :
    (c.sort_order = "desc".toList →
      ((filter_and_sort_proxies l c).1).Pairwise
        fun a b => sortKey c.sort_by b ≤ sortKey c.sort_by a) ∧
    (c.sort_order ≠ "desc".toList →
      ((filter_and_sort_proxies l c).1).Pairwise
        fun a b => sortKey c.sort_by a ≤ sortKey c.sort_by b) ∧
    (∀ p : Proxy, sortKey c.sort_by p = ⊤ ↔
      (fieldVal c.sort_by p = none ∨ fieldVal c.sort_by p = some 0)) := by
  refine ⟨?_, ?_, ?_⟩
  · intro h
    refine (result_pairwise_sortLe l c).imp ?_
    intro a b hab
    unfold sortLe at hab
    rw [if_pos h] at hab
    exact of_decide_eq_true hab
  · intro h
    refine (result_pairwise_sortLe l c).imp ?_
    intro a b hab
    unfold sortLe at hab
    rw [if_neg h] at hab
    exact of_decide_eq_true hab
  · intro p
    unfold sortKey
    cases hf : fieldVal c.sort_by p with
    | none => simp
    | some x =>
      by_cases hx : x = 0
      · simp [hx]
      · simp [hx, WithTop.coe_ne_top]

def c1pNone : Proxy :=
  { server := "h".toList, port := 1, secret := "s".toList, original_url := "m".toList }

def c1pZero : Proxy :=
  { server := "h".toList, port := 1, secret := "s".toList, original_url := "n".toList,
    ping := some 0 }

/-- Counterexample for C1 as stated: sorting ascending by ping, a record
with an absent ping stays ahead of a record whose ping is present (and
equal to 0), because the source maps the falsy value 0 to infinity just
like None; so it is not the case that every absent-field record is placed
after every present-field record in ascending order. -/
theorem c1_cex :
    (filter_and_sort_proxies [c1pNone, c1pZero] {}).1 = [c1pNone, c1pZero] ∧
      c1pNone.ping = none ∧ c1pZero.ping = some 0 ∧
      ({} : FilterCriteria).sort_order ≠ "desc".toList ∧
      ({} : FilterCriteria).sort_by = SortBy.ping := by
  refine ⟨by decide, by decide, by decide, by decide, by decide⟩

/-- Witness for C1 on a concrete ascending sort. -/
theorem c1_witness :
    ((filter_and_sort_proxies [c1pZero, c6pLo, c1pNone] {}).1).Pairwise
      (fun a b => sortKey SortBy.ping a ≤ sortKey SortBy.ping b) :=
  (c1_sort_key_semantics [c1pZero, c6pLo, c1pNone] {}).2.1 (by decide)

/-! ### C2: ping and jitter of an accepted endpoint -/

lemma sampleVarQ_nonneg (l : List ℕ) : 0 ≤ sampleVarQ l := by
  unfold sampleVarQ
  cases l with
  | nil => simp
  | cons a t =>
    apply div_nonneg
    · apply List.sum_nonneg
      intro x hx
      rcases List.mem_map.mp hx with ⟨y, hy, rfl⟩
      positivity
    · have h1 : (1:ℚ) ≤ ((a :: t).length : ℚ) := by
        have : 1 ≤ (a :: t).length := by simp
        exact_mod_cast this
      linarith

lemma rhSqrt_eq_rheR (w : ℚ) (hw : 0 ≤ w) : rhSqrt w = rheR (Real.sqrt (w : ℝ)) := by
  have hw' : (0:ℝ) ≤ (w:ℝ) := by exact_mod_cast hw
  have hx0 : 0 ≤ Real.sqrt (w:ℝ) := Real.sqrt_nonneg _
  have hx2 : Real.sqrt (w:ℝ) ^ 2 = (w:ℝ) := Real.sq_sqrt hw'
  set x := Real.sqrt (w:ℝ) with hxdef
  set m : ℤ := (Nat.sqrt (⌊w⌋.toNat) : ℤ) with hmdef
  have hm0 : (0:ℤ) ≤ m := by rw [hmdef]; exact_mod_cast Nat.zero_le _
  have hfl : (0:ℤ) ≤ ⌊w⌋ := Int.floor_nonneg.mpr hw
  have htn : ((⌊w⌋.toNat : ℤ)) = ⌊w⌋ := Int.toNat_of_nonneg hfl
  have hm_le : (m:ℝ) ≤ x := by
    rw [hxdef, Real.le_sqrt (by exact_mod_cast hm0) hw']
    have h1 : (m^2 : ℤ) ≤ ⌊w⌋ := by
      rw [hmdef, ← htn]
      exact_mod_cast Nat.sqrt_le' (⌊w⌋.toNat)
    have h2 : ((m^2 : ℤ) : ℚ) ≤ w := le_trans (by exact_mod_cast h1) (Int.floor_le w)
    have h3 : ((m^2 : ℤ) : ℝ) ≤ (w:ℝ) := by exact_mod_cast h2
    push_cast at h3 ⊢
    linarith
  have hm_lt : x < (m:ℝ) + 1 := by
    rw [hxdef, Real.sqrt_lt' (by positivity)]
    have h2 : ⌊w⌋ < (m+1)^2 := by
      rw [hmdef, ← htn]
      exact_mod_cast Nat.lt_succ_sqrt' (⌊w⌋.toNat)
    have h3 : w < (((m+1)^2 : ℤ) : ℚ) :=
      lt_of_lt_of_le (Int.lt_floor_add_one w) (by exact_mod_cast Int.add_one_le_iff.mpr h2)
    have h4 : (w:ℝ) < (((m+1)^2 : ℤ) : ℝ) := by exact_mod_cast h3
    push_cast at h4 ⊢
    linarith
  have hfloor : ⌊x⌋ = m := by
    rw [Int.floor_eq_iff]
    exact ⟨hm_le, hm_lt⟩
  have key_lt : (4 * w < (((2*m+1)^2 : ℤ) : ℚ)) ↔ x < (m:ℝ) + 1/2 := by
    rw [hxdef, Real.sqrt_lt' (by positivity)]
    constructor
    · intro h
      have h' : 4 * (w:ℝ) < ((2*(m:ℝ)+1))^2 := by exact_mod_cast h
      nlinarith [h']
    · intro h
      have h' : 4 * (w:ℝ) < ((2*(m:ℝ)+1))^2 := by nlinarith [h]
      exact_mod_cast h'
  have key_gt : ((((2*m+1)^2 : ℤ) : ℚ) < 4 * w) ↔ (m:ℝ) + 1/2 < x := by
    rw [hxdef, Real.lt_sqrt (by positivity)]
    constructor
    · intro h
      have h' : ((2*(m:ℝ)+1))^2 < 4 * (w:ℝ) := by exact_mod_cast h
      nlinarith [h']
    · intro h
      have h' : ((2*(m:ℝ)+1))^2 < 4 * (w:ℝ) := by nlinarith [h]
      exact_mod_cast h'
  simp only [rhSqrt, rheR]
  rw [← hmdef, hfloor]
  rcases lt_trichotomy (4 * w) ((((2*m+1)^2 : ℤ) : ℚ)) with hlt | heq | hgt
  · rw [if_pos hlt, if_pos (by have := key_lt.mp hlt; linarith)]
  · have hxeq : x = (m:ℝ) + 1/2 := by
      have hsq : ((m:ℝ) + 1/2)^2 = (w:ℝ) := by
        have h' : 4 * (w:ℝ) = ((2*(m:ℝ)+1))^2 := by exact_mod_cast heq
        nlinarith [h']
      rw [hxdef, ← hsq, Real.sqrt_sq (by positivity)]
    have hnotlt : ¬(4 * w < (((2*m+1)^2 : ℤ) : ℚ)) := by rw [heq]; exact lt_irrefl _
    have hnotgt : ¬((((2*m+1)^2 : ℤ) : ℚ) < 4 * w) := by rw [heq]; exact lt_irrefl _
    have hr1 : ¬(x - (m:ℝ) < 1/2) := by rw [hxeq]; norm_num
    have hr2 : ¬((1:ℝ)/2 < x - (m:ℝ)) := by rw [hxeq]; norm_num
    rw [if_neg hnotlt, if_neg hnotgt, if_neg hr1, if_neg hr2]
  · rw [if_neg (by exact not_lt_of_gt hgt), if_pos hgt,
      if_neg (by have := key_gt.mp hgt; linarith),
      if_pos (by have := key_gt.mp hgt; linarith)]

lemma sampleVarQ_cast (l : List ℕ) :
    ((sampleVarQ l : ℚ) : ℝ) =
      ((l.map fun x : ℕ => ((x : ℝ) - (l.sum : ℝ) / (l.length : ℝ)) ^ 2).sum) /
        ((l.length : ℝ) - 1) := by
  unfold sampleVarQ
  rw [Rat.cast_div]
  congr 1
  · rw [Rat.cast_list_sum, List.map_map]
    congr 1
    apply List.map_congr_left
    intro x hx
    simp only [Function.comp_apply]
    push_cast
    rw [show (List.map Rat.cast (List.map (Nat.cast : ℕ → ℚ) l)) =
        List.map (Nat.cast : ℕ → ℝ) l by
      rw [List.map_map]
      apply List.map_congr_left
      intro a ha
      simp]
  · push_cast
    ring

lemma jitter_bridge (S : List ℕ) :
    ((rhSqrt (10000 * sampleVarQ S) : ℤ) : ℚ) / 100 = round2R (stdevR S) := by
  have hw : (0:ℚ) ≤ 10000 * sampleVarQ S := by
    have := sampleVarQ_nonneg S
    positivity
  have h100 : (100 : ℝ) * stdevR S = Real.sqrt (((10000 * sampleVarQ S : ℚ) : ℝ)) := by
    rw [stdevR, ← sampleVarQ_cast]
    rw [show ((10000 * sampleVarQ S : ℚ) : ℝ) = (100:ℝ)^2 * ((sampleVarQ S : ℚ) : ℝ) by
      push_cast; ring]
    rw [Real.sqrt_mul (by norm_num) _, Real.sqrt_sq (by norm_num : (0:ℝ) ≤ 100)]
  rw [round2R, h100, ← rhSqrt_eq_rheR _ hw]

/-- C2: whenever check_proxy produces a record, the record's ping is the
integer-truncated arithmetic mean of exactly the successful latency
samples (failed samples contribute nothing), and its jitter is the sample
standard deviation of the successful samples rounded to two decimal
places when at least two samples succeeded and exactly 0 when one did;
ping and jitter are always assigned together. -/
theorem c2_ping_jitter (p : Proxy) (count : ℕ) (fc : Bool) (doms : List Str)
    (env : ProbeEnv)
    (h : (List.range count).filterMap env.lat ≠ []) :
    ((check_proxy p count fc doms env).1).map Proxy.ping =
      some (some ⌊(((List.range count).filterMap env.lat).sum : ℚ) /
        (((List.range count).filterMap env.lat).length : ℚ)⌋) ∧
    ((check_proxy p count fc doms env).1).map Proxy.jitter =
      some (some (if 1 < ((List.range count).filterMap env.lat).length then
        round2R (stdevR ((List.range count).filterMap env.lat)) else 0)) := by
  have hemp : ((List.range count).filterMap env.lat).isEmpty = false := by
    cases hb : ((List.range count).filterMap env.lat).isEmpty
    · rfl
    · exact absurd (List.isEmpty_iff.mp hb) h
  constructor
  · simp only [check_proxy, hemp, Bool.false_eq_true, if_false, Option.map_some']
  · simp only [check_proxy, hemp, Bool.false_eq_true, if_false, Option.map_some']
    rw [Option.some.injEq, Option.some.injEq]
    by_cases h1 : 1 < ((List.range count).filterMap env.lat).length
    · rw [if_pos h1, if_pos h1]
      exact jitter_bridge _
    · rw [if_neg h1, if_neg h1]

def c2rec : Proxy :=
  { server := "h".toList, port := 1, secret := "s".toList, original_url := "q".toList }

def c2env : ProbeEnv :=
  { lat := fun i => if i = 0 then some 3 else if i = 1 then some 5 else none }

/-- Witness for C2 on a run of three samples of which the first two
succeed with 3ms and 5ms and the third fails. -/
theorem c2_witness :
    ((List.range 3).filterMap c2env.lat ≠ []) ∧
      (((check_proxy c2rec 3 false [] c2env).1).map Proxy.ping =
        some (some ⌊(((List.range 3).filterMap c2env.lat).sum : ℚ) /
          (((List.range 3).filterMap c2env.lat).length : ℚ)⌋) ∧
      ((check_proxy c2rec 3 false [] c2env).1).map Proxy.jitter =
        some (some (if 1 < ((List.range 3).filterMap c2env.lat).length then
          round2R (stdevR ((List.range 3).filterMap c2env.lat)) else 0))) :=
  ⟨by decide, c2_ping_jitter c2rec 3 false [] c2env (by decide)⟩
